import Mathlib

/-!
Verification development for the Mython interpreter core (lexer and AST
evaluator).  The definitions below are a shallow embedding of the C++
sources:

* `lexer.h` / `lexer.cpp` (`parse::Lexer`, `parse::Token`);
* `statement.h` / `statement.cpp` (`ast::*` statement nodes);
* `runtime.cpp` (`runtime::Equal`, `runtime::Less`, `runtime::Class`,
  `runtime::ClassInstance`, `runtime::IsTrue`).

The character stream is a `List Char`; end-of-stream (`EOF`) is the empty
list.  C++ exceptions are modelled by explicit result constructors
(`LexStep.fail`, `Res.err`, `Res.ret`).  Unbounded recursion of the
evaluator (method calls) is cut with a fuel parameter; running out of fuel
gives a distinguished `oof` result.  Code of the repository that is known
to loop forever (reading `EOF` in `Lexer::ParseString`) is modelled as the
distinguished `LexStep.hang` result.
-/

set_option maxHeartbeats 1000000

namespace Mython

/-! ### Tokens (`parse::token_type`, `parse::Token`) -/

/-- The token alternatives of `parse::TokenBase` (lexer.h). -/
inductive Tok : Type where
  | number (value : Nat)
  | ident (value : String)
  | chr (value : Char)
  | strTok (value : String)
  | kwClass | kwReturn | kwIf | kwElse | kwDef | newline | kwPrint
  | indent | dedent | kwAnd | kwOr | kwNot
  | eqTok | notEqTok | lessOrEq | greaterOrEq
  | kwNone | kwTrue | kwFalse | eofTok
deriving DecidableEq

/-- The keyword table `Lexer::keywords` (lexer.h). -/
def keywordTok (s : String) : Option Tok :=
  if s = "class" then some .kwClass
  else if s = "return" then some .kwReturn
  else if s = "if" then some .kwIf
  else if s = "else" then some .kwElse
  else if s = "def" then some .kwDef
  else if s = "print" then some .kwPrint
  else if s = "and" then some .kwAnd
  else if s = "or" then some .kwOr
  else if s = "not" then some .kwNot
  else if s = "None" then some .kwNone
  else if s = "True" then some .kwTrue
  else if s = "False" then some .kwFalse
  else none

/-! ### Lexer state (`parse::Lexer` fields) -/

/-- The lexer state: remaining input, `current_indent_size_`,
`indent_sizes_` (top of the `std::stack` is the head of the list; the C++
stack holds `uint8_t`, so pushed widths are truncated modulo 256) and the
`tokens_` deque in emission order (`CurrentToken` is the last element). -/
structure LexerSt where
  input : List Char
  currentIndent : Nat
  indentStack : List Nat
  tokens : List Tok
deriving DecidableEq

/-- `CurrentToken()`: the most recently emitted token, if any. -/
def lastTok (st : LexerSt) : Option Tok := st.tokens.getLast?

/-- Count and drop the leading run of spaces
(the inner `for` loop of `Lexer::MoveToNextToken`). -/
def skipSpaces : List Char → Nat × List Char
  | [] => (0, [])
  | c :: rest =>
    if c = ' ' then
      let p := skipSpaces rest
      (p.1 + 1, p.2)
    else (0, c :: rest)

/-- Drop a comment: if the next character is `#`, drop everything up to
(but not including) the next newline or the end of input
(the comment loop of `Lexer::MoveToNextToken`). -/
def skipComment (l : List Char) : List Char :=
  match l with
  | '#' :: _ => l.dropWhile (fun c => c ≠ '\n')
  | _ => l

theorem skipSpaces_length_le (l : List Char) : (skipSpaces l).2.length ≤ l.length := by
  induction l with
  | nil => simp [skipSpaces]
  | cons c rest ih =>
    simp only [skipSpaces]
    split
    · simpa using Nat.le_succ_of_le ih
    · simp

theorem dropWhile_length_le (p : Char → Bool) (l : List Char) :
    (l.dropWhile p).length ≤ l.length := by
  induction l with
  | nil => simp [List.dropWhile]
  | cons c rest ih =>
    simp only [List.dropWhile]
    split
    · exact Nat.le_succ_of_le ih
    · simp

theorem skipComment_length_le (l : List Char) : (skipComment l).length ≤ l.length := by
  unfold skipComment
  split
  · exact dropWhile_length_le _ _
  · exact Nat.le_refl _

/-- The blank-line/comment-skipping loop of `Lexer::MoveToNextToken`
(`while (true) { ... }`), with explicit fuel; `moveLoop` below supplies
fuel equal to the input length, which always suffices since every
continuing iteration consumes at least the newline character. -/
def moveLoopAux (isNew : Bool) : Nat → List Char → Nat × List Char
  | 0, input => (0, input)
  | fuel + 1, input =>
    if (skipComment (skipSpaces input).2).head? = some '\n' ∧ isNew = true then
      moveLoopAux isNew fuel (skipComment (skipSpaces input).2).tail
    else ((skipSpaces input).1, skipComment (skipSpaces input).2)

def moveLoop (isNew : Bool) (input : List Char) : Nat × List Char :=
  moveLoopAux isNew input.length input

/-- The tail of `Lexer::MoveToNextToken` after the skipping loop produced
the pair `p = (space_count, remaining input)`: raise a `LexerError` on an
odd indent width at a logical line start; update `current_indent_size_`
when the new width differs from the stack top. -/
def moveToNextCore (st : LexerSt) (p : Nat × List Char) : Except String LexerSt :=
  if lastTok st = some .newline ∧ p.1 % 2 ≠ 0 then .error "indent size must be even"
  else if lastTok st = some .newline ∧ p.1 ≠ st.indentStack.headD 0 then
    .ok { st with input := p.2, currentIndent := p.1 }
  else .ok { st with input := p.2 }

/-- `Lexer::MoveToNextToken`: skip spaces, comments and (at a line start
or before the first token) blank lines, then apply `moveToNextCore`. -/
def moveToNext (st : LexerSt) : Except String LexerSt :=
  moveToNextCore st
    (moveLoop (st.tokens.isEmpty || decide (lastTok st = some .newline)) st.input)

/-- Decimal value of a digit run (`std::stoi` on the collected digits in
`Lexer::ParseDigit`; overflow of the host `int` is not modelled). -/
def digitsToNat (l : List Char) : Nat :=
  l.foldl (fun acc c => acc * 10 + (c.toNat - '0'.toNat)) 0

/-- `Lexer::ParseDigit`. -/
def parseDigitTok (input : List Char) : Tok × List Char :=
  (.number (digitsToNat (input.takeWhile Char.isDigit)),
   input.dropWhile Char.isDigit)

/-- An identifier character (`isalpha || isdigit || c == '_'` in
`Lexer::ParseIdentifier`). -/
def idChar (c : Char) : Bool := c.isAlpha || c.isDigit || c = '_'

/-- `Lexer::ParseIdentifier`: collect identifier characters and promote
keywords via the keyword table. -/
def parseIdentTok (input : List Char) : Tok × List Char :=
  ((keywordTok (String.mk (input.takeWhile idChar))).getD
      (.ident (String.mk (input.takeWhile idChar))),
   input.dropWhile idChar)

/-- The scanning loop of `Lexer::ParseString`.  `none` models the fact
that when the stream ends before the closing quote, `input_.get()` keeps
returning `EOF` (whose `char` conversion never equals the quote), so the
C++ loop never terminates. -/
def parseStrLoop (quote : Char) : List Char → List Char → Option (String × List Char)
  | [], _ => none
  | c :: rest, acc =>
    if c = quote then some (String.mk acc.reverse, rest)
    else if c = '\\' then
      match rest with
      | [] => none
      | nx :: rest2 =>
        if nx = Char.ofNat 39 ∨ nx = '\"' then parseStrLoop quote rest2 (nx :: acc)
        else if nx = 'n' then parseStrLoop quote rest2 ('\n' :: acc)
        else if nx = 't' then parseStrLoop quote rest2 ('\t' :: acc)
        else parseStrLoop quote rest2 (nx :: c :: acc)
    else parseStrLoop quote rest (c :: acc)

/-- `Lexer::ParseLexem`, called with `c` one of `!`, `<`, `>`, `=` already
consumed: emit the two-character comparison token when the next character
is `=`, otherwise emit `c` as a `Char` token. -/
def parseLexemTok (c : Char) (rest : List Char) : Tok × List Char :=
  match rest with
  | '=' :: rest2 =>
    (if c = '!' then .notEqTok
     else if c = '<' then .lessOrEq
     else if c = '>' then .greaterOrEq
     else .eqTok, rest2)
  | _ => (.chr c, rest)

/-- `Lexer::ParseEof`: at end of stream emit `Eof` if no token has been
emitted yet or the last token is `Newline`, `Eof` or `Dedent`; otherwise
emit a synthetic `Newline`. -/
def parseEofTok (st : LexerSt) : Tok :=
  if st.tokens.isEmpty = true ∨ lastTok st = some .newline
     ∨ lastTok st = some .eofTok ∨ lastTok st = some .dedent
  then .eofTok else .newline

/-- Result of one `Lexer::NextToken` call: a new state with one more
token, a thrown `LexerError`, or divergence (`hang`). -/
inductive LexStep where
  | ok (st : LexerSt)
  | fail (msg : String)
  | hang
deriving DecidableEq

/-- Append one emitted token and set the remaining input. -/
def emit (st : LexerSt) (t : Tok) (rest : List Char) : LexerSt :=
  { st with tokens := st.tokens ++ [t], input := rest }

/-- `Lexer::NextToken`: run `MoveToNextToken`, then emit exactly one token
chosen by the dispatch chain (indent resolution first, then digits,
identifiers, strings, comparison lexems, newline, end of stream,
fallback `Char`). -/
def nextToken (st0 : LexerSt) : LexStep :=
  match moveToNext st0 with
  | .error e => .fail e
  | .ok st =>
    if st.currentIndent ≠ st.indentStack.headD 0 then
      if st.currentIndent > st.indentStack.headD 0 then
        .ok { st with tokens := st.tokens ++ [.indent],
                      indentStack := st.currentIndent % 256 :: st.indentStack }
      else
        .ok { st with tokens := st.tokens ++ [.dedent],
                      indentStack := st.indentStack.tail }
    else
      match st.input with
      | [] => .ok (emit st (parseEofTok st) [])
      | c :: rest =>
        if c.isDigit then
          let p := parseDigitTok (c :: rest)
          .ok (emit st p.1 p.2)
        else if c.isAlpha || c = '_' then
          let p := parseIdentTok (c :: rest)
          .ok (emit st p.1 p.2)
        else if c = Char.ofNat 39 || c = '\"' then
          match parseStrLoop c rest [] with
          | some p => .ok (emit st (.strTok p.1) p.2)
          | none => .hang
        else if c = '!' || c = '<' || c = '>' || c = '=' then
          let p := parseLexemTok c rest
          .ok (emit st p.1 p.2)
        else if c = '\n' then .ok (emit st .newline rest)
        else .ok (emit st (.chr c) rest)

/-- The lexer state right after the `Lexer` constructor set up
`indent_sizes_ = [0]` and before its initial `NextToken` call. -/
def initSt (input : List Char) : LexerSt :=
  { input := input, currentIndent := 0, indentStack := [0], tokens := [] }

/-- Drive the lexer until it emits `Eof` (the constructor plus the
parser's repeated `NextToken` calls).  `none` means the fuel ran out or
the lexer diverged; `some (.error e)` is a thrown `LexerError`;
`some (.ok toks)` is the complete emitted token stream. -/
def lexRun : Nat → LexerSt → Option (Except String (List Tok))
  | 0, _ => none
  | fuel + 1, st =>
    match nextToken st with
    | .fail e => some (.error e)
    | .hang => none
    | .ok st2 =>
      if lastTok st2 = some .eofTok then some (.ok st2.tokens)
      else lexRun fuel st2

/-- Run at most `fuel` `NextToken` calls, stopping at `Eof`, an error or
divergence; returns the state reached (used to speak about every prefix
of the emitted token stream). -/
def lexSteps : Nat → LexerSt → LexerSt
  | 0, st => st
  | fuel + 1, st =>
    match nextToken st with
    | .ok st2 => if lastTok st2 = some .eofTok then st2 else lexSteps fuel st2
    | _ => st

example :
    lexRun 10 (initSt "x\n  y\n  ".data)
      = some (.ok [.ident "x", .newline, .indent, .ident "y", .newline, .eofTok]) := by
  rfl

example :
    lexRun 12 (initSt "x\n  y\n".data)
      = some (.ok [.ident "x", .newline, .indent, .ident "y", .newline, .dedent, .eofTok]) := by
  rfl

/-! ### Lexer lemmas -/

/-- Number of occurrences of a token in an emitted stream. -/
def countTok (t : Tok) : List Tok → Nat
  | [] => 0
  | x :: rest => (if x = t then 1 else 0) + countTok t rest

theorem countTok_append (t : Tok) (l1 l2 : List Tok) :
    countTok t (l1 ++ l2) = countTok t l1 + countTok t l2 := by
  induction l1 with
  | nil => simp [countTok]
  | cons x rest ih => simp [countTok, ih]; omega

/-- After the skipping loop ran at a logical line start (`isNew = true`),
the remaining input does not begin with a newline character. -/
theorem moveLoopAux_head_ne :
    ∀ (fuel : Nat) (input : List Char), input.length ≤ fuel →
      (moveLoopAux true fuel input).2.head? ≠ some '\n' := by
  intro fuel
  induction fuel with
  | zero =>
    intro input h
    have : input = [] := List.length_eq_zero.mp (Nat.le_zero.mp h)
    subst this
    simp [moveLoopAux]
  | succ n ih =>
    intro input h
    rw [moveLoopAux]
    split
    case isTrue hc =>
      apply ih
      have h1 : (skipComment (skipSpaces input).2).length ≤ input.length :=
        Nat.le_trans (skipComment_length_le _) (skipSpaces_length_le _)
      have h2 : (skipComment (skipSpaces input).2) ≠ [] := by
        intro hnil; rw [hnil] at hc; simp at hc
      have h3 := List.length_tail (skipComment (skipSpaces input).2)
      have h4 : 0 < (skipComment (skipSpaces input).2).length :=
        List.length_pos.mpr h2
      omega
    case isFalse hc =>
      intro hh
      exact hc ⟨hh, rfl⟩

theorem moveLoop_head_ne (input : List Char) :
    (moveLoop true input).2.head? ≠ some '\n' :=
  moveLoopAux_head_ne input.length input (Nat.le_refl _)

/-- `MoveToNextToken` does not change the emitted tokens or the indent
stack, and leaves the skipping loop's remaining input. -/
theorem moveToNext_fields {st st1 : LexerSt} (h : moveToNext st = .ok st1) :
    st1.tokens = st.tokens ∧ st1.indentStack = st.indentStack ∧
      st1.input =
        (moveLoop (st.tokens.isEmpty || decide (lastTok st = some .newline)) st.input).2 := by
  unfold moveToNext moveToNextCore at h
  split at h
  · exact absurd h (by simp)
  · split at h <;> (injection h with h; subst h; exact ⟨rfl, rfl, rfl⟩)

/-- After `MoveToNextToken` at a logical line start (or before the first
token), the remaining input does not begin with a newline. -/
theorem moveToNext_no_nl {st st1 : LexerSt} (h : moveToNext st = .ok st1)
    (hn : st.tokens = [] ∨ lastTok st = some .newline) :
    st1.input.head? ≠ some '\n' := by
  have hf := (moveToNext_fields h).2.2
  have harg : (st.tokens.isEmpty || decide (lastTok st = some .newline)) = true := by
    rcases hn with hn | hn
    · simp [hn]
    · simp [hn]
  rw [hf, harg]
  exact moveLoop_head_ne _

theorem identTok_ne (s : String) :
    (keywordTok s).getD (.ident s) ≠ .indent ∧
    (keywordTok s).getD (.ident s) ≠ .dedent ∧
    (keywordTok s).getD (.ident s) ≠ .newline := by
  unfold keywordTok
  split_ifs <;> simp

theorem parseIdentTok_ne (l : List Char) :
    (parseIdentTok l).1 ≠ .indent ∧
    (parseIdentTok l).1 ≠ .dedent ∧
    (parseIdentTok l).1 ≠ .newline := by
  simp only [parseIdentTok]
  exact identTok_ne _

theorem parseLexemTok_ne (c : Char) (rest : List Char) :
    (parseLexemTok c rest).1 ≠ .indent ∧
    (parseLexemTok c rest).1 ≠ .dedent ∧
    (parseLexemTok c rest).1 ≠ .newline := by
  unfold parseLexemTok
  split
  · split_ifs <;> simp
  · simp

theorem parseEofTok_ne (st : LexerSt) :
    parseEofTok st ≠ .indent ∧ parseEofTok st ≠ .dedent := by
  unfold parseEofTok
  split <;> simp

/-- When the last emitted token is `Newline`, or nothing has been emitted
yet, `ParseEof` yields `Eof`. -/
theorem parseEofTok_of_nl (st : LexerSt)
    (hn : st.tokens = [] ∨ lastTok st = some .newline) :
    parseEofTok st = .eofTok := by
  unfold parseEofTok
  rcases hn with hn | hn
  · rw [if_pos (Or.inl (by simp [hn]))]
  · rw [if_pos (Or.inr (Or.inl hn))]

/-- One `NextToken` call appends exactly one token, and that token is not
`Newline` if the previous token was `Newline` or no token was emitted. -/
theorem nextToken_shape {st st2 : LexerSt} (h : nextToken st = .ok st2) :
    ∃ t, st2.tokens = st.tokens ++ [t] ∧
      ((st.tokens = [] ∨ lastTok st = some .newline) → t ≠ .newline) := by
  unfold nextToken at h
  split at h
  next e heq => exact absurd h (by simp)
  next st1 hmv =>
    obtain ⟨htok, _, _⟩ := moveToNext_fields hmv
    have hlast : lastTok st1 = lastTok st := by unfold lastTok; rw [htok]
    split at h
    · split at h
      · injection h with h; subst h
        exact ⟨.indent, by rw [htok], fun _ => by simp⟩
      · injection h with h; subst h
        exact ⟨.dedent, by rw [htok], fun _ => by simp⟩
    · split at h
      case h_1 =>
        injection h with h; subst h
        refine ⟨parseEofTok st1, by simp [emit, htok], fun hn => ?_⟩
        rw [parseEofTok_of_nl st1 (by rw [htok, hlast]; exact hn)]
        simp
      case h_2 c rest hinp =>
        have hhd : st1.input.head? = some c := by rw [hinp]; rfl
        split_ifs at h with h1 h2 h3 h4 h5
        · injection h with h; subst h
          exact ⟨(parseDigitTok (c :: rest)).1, by simp [emit, htok],
            fun _ => by simp [parseDigitTok]⟩
        · injection h with h; subst h
          exact ⟨(parseIdentTok (c :: rest)).1, by simp [emit, htok],
            fun _ => (parseIdentTok_ne _).2.2⟩
        · split at h
          next p hp =>
            injection h with h; subst h
            exact ⟨.strTok p.1, by simp [emit, htok], fun _ => by simp⟩
          next hp => exact absurd h (by simp)
        · injection h with h; subst h
          exact ⟨(parseLexemTok c rest).1, by simp [emit, htok],
            fun _ => (parseLexemTok_ne _ _).2.2⟩
        · injection h with h; subst h
          refine ⟨.newline, by simp [emit, htok], fun hn => ?_⟩
          exfalso
          apply moveToNext_no_nl hmv hn
          rw [hhd, h5]
        · injection h with h; subst h
          exact ⟨.chr c, by simp [emit, htok], fun _ => by simp⟩

/-! ### C7: newline discipline -/

/-- No two consecutive `Newline` tokens. -/
def noConsecNL : List Tok → Prop
  | [] => True
  | [_] => True
  | t1 :: t2 :: rest => ¬(t1 = .newline ∧ t2 = .newline) ∧ noConsecNL (t2 :: rest)

theorem noConsecNL_append {l : List Tok} {t : Tok} (h : noConsecNL l)
    (h2 : l.getLast? = some .newline → t ≠ .newline) :
    noConsecNL (l ++ [t]) := by
  induction l with
  | nil => simp [noConsecNL]
  | cons a rest ih =>
    cases rest with
    | nil =>
      refine ⟨fun ⟨ha, ht⟩ => ?_, trivial⟩
      exact h2 (by simp [ha]) ht
    | cons b r2 =>
      obtain ⟨hab, hrest⟩ := h
      refine ⟨hab, ih hrest fun hl => h2 ?_⟩
      rw [List.getLast?_cons_cons]
      exact hl

/-- The invariant for C7: no consecutive newlines, and the stream does not
begin with a newline. -/
def nlInv (st : LexerSt) : Prop :=
  noConsecNL st.tokens ∧ st.tokens.head? ≠ some .newline

theorem nlInv_step {st st2 : LexerSt} (h : nlInv st) (hn : nextToken st = .ok st2) :
    nlInv st2 := by
  obtain ⟨t, htok, hne⟩ := nextToken_shape hn
  obtain ⟨hcons, hhead⟩ := h
  constructor
  · rw [htok]
    apply noConsecNL_append hcons
    intro hl
    exact hne (Or.inr hl)
  · rw [htok]
    cases hst : st.tokens with
    | nil =>
      simp only [hst, List.nil_append, List.head?_cons]
      intro hc
      injection hc with hc
      exact hne (Or.inl hst) hc
    | cons a r =>
      rw [hst] at hhead
      simpa using hhead

theorem nlInv_lexSteps (fuel : Nat) :
    ∀ st : LexerSt, nlInv st → nlInv (lexSteps fuel st) := by
  induction fuel with
  | zero => intro st h; exact h
  | succ n ih =>
    intro st h
    rw [lexSteps]
    split
    next st2 hn =>
      have h2 := nlInv_step h hn
      split
      · exact h2
      · exact ih st2 h2
    next _ _ => exact h

/-- **C7**: for every input and any number of lexer steps, the emitted
token stream never contains two consecutive `Newline` tokens, and its
first token is never a `Newline`. -/
theorem claim_c7_newline_discipline (fuel : Nat) (input : List Char) :
    noConsecNL (lexSteps fuel (initSt input)).tokens ∧
      (lexSteps fuel (initSt input)).tokens.head? ≠ some .newline :=
  nlInv_lexSteps fuel (initSt input) ⟨trivial, by simp [initSt]⟩

/-! ### C2: indent/dedent accounting -/

/-- The indent-stack invariant: the stack is nonempty, its bottom element
is the initial width `0`, and the emitted `Indent`/`Dedent` counts differ
exactly by the number of pushed widths. -/
def stackOk (st : LexerSt) : Prop :=
  st.indentStack ≠ [] ∧ st.indentStack.getLast? = some 0 ∧
    countTok .indent st.tokens + 1 = countTok .dedent st.tokens + st.indentStack.length

theorem countTok_snoc_ne (l : List Tok) {t x : Tok} (h : t ≠ x) :
    countTok x (l ++ [t]) = countTok x l := by
  rw [countTok_append]
  simp [countTok, h]

theorem stackOk_emit {st : LexerSt} (h : stackOk st) {t : Tok} {rest : List Char}
    (hi : t ≠ .indent) (hd : t ≠ .dedent) : stackOk (emit st t rest) := by
  obtain ⟨h1, h2, h3⟩ := h
  exact ⟨h1, h2, by simp [emit, countTok_snoc_ne _ hi, countTok_snoc_ne _ hd, h3]⟩

theorem stackOk_step {st st2 : LexerSt} (h : stackOk st) (hn : nextToken st = .ok st2) :
    stackOk st2 := by
  unfold nextToken at hn
  split at hn
  next e heq => exact absurd hn (by simp)
  next st1 hmv =>
    obtain ⟨htok, hstk, _⟩ := moveToNext_fields hmv
    have h1 : stackOk st1 := by
      obtain ⟨ha, hb, hc⟩ := h
      exact ⟨by rw [hstk]; exact ha, by rw [hstk]; exact hb, by rw [htok, hstk]; exact hc⟩
    clear h htok hstk hmv
    obtain ⟨ha, hb, hc⟩ := h1
    split at hn
    case isTrue hne =>
      split at hn
      case isTrue hgt =>
        injection hn with hn; subst hn
        refine ⟨by simp, ?_, ?_⟩
        · simp only []
          cases hs : st1.indentStack with
          | nil => exact absurd hs ha
          | cons a r =>
            rw [hs] at hb
            cases r with
            | nil => simpa using hb
            | cons b r2 => rw [List.getLast?_cons_cons]; rw [List.getLast?_cons_cons] at hb; exact hb
        · simp only [countTok_snoc_ne _ (by simp : (Tok.indent : Tok) ≠ .dedent),
            countTok_append, List.length_cons]
          simp [countTok]
          omega
      case isFalse hle =>
        injection hn with hn; subst hn
        have hlt : st1.currentIndent < st1.indentStack.headD 0 := by omega
        cases hs : st1.indentStack with
        | nil => exact absurd hs ha
        | cons a r =>
          cases r with
          | nil =>
            rw [hs] at hb hlt
            simp at hb
            subst hb
            simp at hlt
          | cons b r2 =>
            rw [hs] at hb hc
            refine ⟨by simp [hs], ?_, ?_⟩
            · simp only [hs, List.tail_cons]
              rw [List.getLast?_cons_cons] at hb
              exact hb
            · simp only [hs, List.tail_cons,
                countTok_snoc_ne _ (by simp : (Tok.dedent : Tok) ≠ .indent),
                countTok_append, List.length_cons]
              simp only [List.length_cons] at hc
              simp [countTok]
              omega
    case isFalse heq =>
      split at hn
      case h_1 =>
        injection hn with hn; subst hn
        exact stackOk_emit ⟨ha, hb, hc⟩ (parseEofTok_ne st1).1 (parseEofTok_ne st1).2
      case h_2 c rest hinp =>
        split_ifs at hn with hd1 hd2 hd3 hd4 hd5
        · injection hn with hn; subst hn
          exact stackOk_emit ⟨ha, hb, hc⟩ (by simp [parseDigitTok]) (by simp [parseDigitTok])
        · injection hn with hn; subst hn
          exact stackOk_emit ⟨ha, hb, hc⟩ (identTok_ne _).1 (identTok_ne _).2.1
        · split at hn
          · injection hn with hn; subst hn
            exact stackOk_emit ⟨ha, hb, hc⟩ (by simp) (by simp)
          · exact absurd hn (by simp)
        · injection hn with hn; subst hn
          exact stackOk_emit ⟨ha, hb, hc⟩ (parseLexemTok_ne _ _).1 (parseLexemTok_ne _ _).2.1
        · injection hn with hn; subst hn
          exact stackOk_emit ⟨ha, hb, hc⟩ (by simp) (by simp)
        · injection hn with hn; subst hn
          exact stackOk_emit ⟨ha, hb, hc⟩ (by simp) (by simp)

theorem stackOk_lexRun :
    ∀ (fuel : Nat) {st : LexerSt} {toks : List Tok}, stackOk st →
      lexRun fuel st = some (.ok toks) →
      ∃ st2 : LexerSt, toks = st2.tokens ∧ stackOk st2 := by
  intro fuel
  induction fuel with
  | zero => intro st toks _ h; exact absurd h (by simp [lexRun])
  | succ n ih =>
    intro st toks hok h
    rw [lexRun] at h
    split at h
    next e heq => simp at h
    next heq => exact absurd h (by simp)
    next st2 hn =>
      have h2 := stackOk_step hok hn
      split at h
      · refine ⟨st2, ?_, h2⟩
        injection h with h
        injection h with h
        exact h.symm
      · exact ih h2 h

/-- **C2 (amended)**: whenever the lexer runs to completion (its stream
ends with `Eof` and no `LexerError` was raised), the number of emitted
`Dedent` tokens is at most the number of emitted `Indent` tokens.  (The
original claim of exact equality is refuted by
`claim_c2_counterexample`.) -/
theorem claim_c2_dedent_le_indent (input : List Char) (fuel : Nat) (toks : List Tok)
    (h : lexRun fuel (initSt input) = some (.ok toks)) :
    countTok .dedent toks ≤ countTok .indent toks := by
  have hok : stackOk (initSt input) := by
    refine ⟨by simp [initSt], by simp [initSt], by simp [initSt, countTok]⟩
  obtain ⟨st2, heq, ⟨ha, _, hc⟩⟩ := stackOk_lexRun fuel hok h
  have hpos : 0 < st2.indentStack.length := List.length_pos.mpr ha
  rw [heq]
  omega

/-- **C2 (counterexample)**: on the input `"x\n  y\n  "` (a trailing line
holding only two spaces, matching the current indent width) the lexer
runs to completion, ends with `Eof`, but emits one `Indent` and no
`Dedent` — the claimed exact balance fails. -/
theorem claim_c2_counterexample :
    lexRun 8 (initSt "x\n  y\n  ".data)
        = some (.ok [.ident "x", .newline, .indent, .ident "y", .newline, .eofTok]) ∧
      ¬ countTok .indent [Tok.ident "x", .newline, .indent, .ident "y", .newline, .eofTok]
          = countTok .dedent [Tok.ident "x", .newline, .indent, .ident "y", .newline, .eofTok] :=
  ⟨by rfl, by decide⟩

theorem claim_c2_witness :
    countTok .dedent [Tok.ident "x", .newline, .indent, .ident "y", .newline, .eofTok]
      ≤ countTok .indent [Tok.ident "x", .newline, .indent, .ident "y", .newline, .eofTok] :=
  claim_c2_dedent_le_indent "x\n  y\n  ".data 8
    [Tok.ident "x", .newline, .indent, .ident "y", .newline, .eofTok] (by rfl)

/-! ### C3: unterminated string literal -/

/-- **C3**: on an input that opens a string literal and ends before the
closing quote, the lexer does not raise a `LexError` — it diverges: for
every amount of fuel the run neither completes nor fails
(`Lexer::ParseString` keeps reading `EOF` forever).  This contradicts the
claim that tokenisation of an unterminated string fails with a lex
error. -/
theorem claim_c3_unterminated_string_hangs :
    ∀ fuel : Nat, lexRun fuel (initSt "\"abc".data) = none := by
  intro fuel
  cases fuel with
  | zero => rfl
  | succ n => rfl

/-! ### Runtime values (`runtime::ObjectHolder` and the object classes)

A `Value` is the contents of an `ObjectHolder`: `Value.none` is the empty
holder (`ObjectHolder::None()`); `num`, `str`, `bool` hold
`runtime::Number`, `runtime::String`, `runtime::Bool`; `cls c` holds the
`runtime::Class` with index `c` in the program's class table; `inst r`
holds the `runtime::ClassInstance` stored at index `r` of the heap. -/

inductive Value : Type where
  | none
  | num (value : Int)
  | str (value : String)
  | bool (value : Bool)
  | cls (c : Nat)
  | inst (r : Nat)
deriving DecidableEq

/-- `runtime::Closure` (`std::unordered_map<std::string, ObjectHolder>`),
modelled as an association list with first-match lookup. -/
abbrev Closure := List (String × Value)

def clGet : Closure → String → Option Value
  | [], _ => Option.none
  | (k, v) :: rest, x => if k = x then some v else clGet rest x

/-- `closure[key] = value`: overwrite an existing binding or append. -/
def clInsert : Closure → String → Value → Closure
  | [], x, v => [(x, v)]
  | (k, w) :: rest, x, v =>
    if k = x then (k, v) :: rest else (k, w) :: clInsert rest x v

/-- The mutable global state: the heap of class instances (each a pair of
class-table index and field environment — `ClassInstance::Fields()`), and
the output chunks written to `Context::GetOutputStream()`. -/
structure RState where
  heap : List (Nat × Closure)
  output : List String
deriving DecidableEq

def heapAt (st : RState) (r : Nat) : Option (Nat × Closure) := st.heap[r]?

/-- Set one field of the instance at `r` (`Fields()[field] = value`). -/
def heapSetField (st : RState) (r : Nat) (fld : String) (v : Value) : RState :=
  match st.heap[r]? with
  | some p => { st with heap := st.heap.set r (p.1, clInsert p.2 fld v) }
  | Option.none => st

/-- Result of executing one statement: normal completion (`ok`), a thrown
return-carrier `ObjectHolder` (`ret`, caught only by `MethodBody`), a
thrown `std::runtime_error` (`err`), or exhausted fuel (`oof`).  `ok` and
`ret` carry the updated local closure and global state; `err` carries the
state reached when the error was thrown. -/
inductive Res : Type where
  | ok (v : Value) (cl : Closure) (st : RState)
  | ret (v : Value) (cl : Closure) (st : RState)
  | err (msg : String) (st : RState)
  | oof
deriving DecidableEq

/-- Result of `ExecuteArguments` (statement.cpp): the evaluated argument
values, or the abrupt outcome of the argument that failed. -/
inductive ArgsRes : Type where
  | ok (vs : List Value) (cl : Closure) (st : RState)
  | ret (v : Value) (cl : Closure) (st : RState)
  | err (msg : String) (st : RState)
  | oof
deriving DecidableEq

/-- Result of printing a single value (`Object::Print`). -/
inductive PRes : Type where
  | ok (s : String) (st : RState)
  | ret (v : Value) (st : RState)
  | err (msg : String) (st : RState)
  | oof
deriving DecidableEq

/-- Result of building a print buffer (the `std::stringstream` of
`Print::Execute` / `Stringify::Execute`). -/
inductive StrRes : Type where
  | ok (s : String) (cl : Closure) (st : RState)
  | ret (v : Value) (cl : Closure) (st : RState)
  | err (msg : String) (st : RState)
  | oof
deriving DecidableEq

/-- Result of `runtime::Equal` / `runtime::Less`: a boolean, a
propagating return-carrier thrown inside a dunder method, a runtime
error, or exhausted fuel. -/
inductive CRes : Type where
  | ok (b : Bool) (st : RState)
  | ret (v : Value) (st : RState)
  | err (msg : String) (st : RState)
  | oof
deriving DecidableEq

/-! ### AST statements (`ast::Statement` variants, statement.h)

The `ast::Comparison` node carries an arbitrary host comparator
(`std::function`) injected by the parser and is therefore not part of the
deep embedding; `runtime::Equal` and `runtime::Less` are modelled
standalone below.  A `NewInstance` node owns its `ClassInstance` member
(`class_`), created when the node is constructed; the embedding carries
the heap index `ref` of that instance. -/

inductive Stmt : Type where
  | numConst (value : Int)
  | strConst (value : String)
  | boolConst (value : Bool)
  | noneConst
  | varValue (dottedIds : List String)
  | assign (var : String) (rv : Stmt)
  | fieldAssign (objectIds : List String) (fieldName : String) (rv : Stmt)
  | printStmt (args : List Stmt)
  | methodCall (object : Stmt) (method : String) (args : List Stmt)
  | newInstance (ref : Nat) (args : List Stmt)
  | stringify (arg : Stmt)
  | add (lhs rhs : Stmt)
  | sub (lhs rhs : Stmt)
  | mult (lhs rhs : Stmt)
  | divStmt (lhs rhs : Stmt)
  | orStmt (lhs rhs : Stmt)
  | andStmt (lhs rhs : Stmt)
  | notStmt (arg : Stmt)
  | compound (stmts : List Stmt)
  | methodBody (body : Stmt)
  | returnStmt (statement : Stmt)
  | classDecl (c : Nat)
  | ifElse (condition ifBody : Stmt) (elseBody : Option Stmt)

/-- `runtime::Method`: name, formal parameter names (without the implicit
`self`) and body statement. -/
structure Method : Type where
  name : String
  formalParams : List String
  body : Stmt

/-- `runtime::Class`: name, ordered method list and optional parent
(an index into the program's class table). -/
structure RClass : Type where
  name : String
  methods : List Method
  parent : Option Nat

/-- The linear first-match scan over the own method list
(`std::find_if` in `Class::GetMethod`). -/
def findMethod : List Method → String → Option Method
  | [], _ => Option.none
  | meth :: rest, m => if meth.name = m then some meth else findMethod rest m

/-- `runtime::Class::GetMethod` with an explicit bound on the parent
chain: scan own methods first, then recurse into the parent.  A chain
longer than the class table (only possible for cyclic parent pointers,
which the parser never builds) yields `none`. -/
def getMethodAux (cs : List RClass) : Nat → Nat → String → Option Method
  | 0, _, _ => Option.none
  | depth + 1, c, m =>
    match cs[c]? with
    | Option.none => Option.none
    | some rc =>
      match findMethod rc.methods m with
      | some meth => some meth
      | Option.none =>
        match rc.parent with
        | some p => getMethodAux cs depth p m
        | Option.none => Option.none

def getMethod (cs : List RClass) (c : Nat) (m : String) : Option Method :=
  getMethodAux cs (cs.length + 1) c m

/-- Modelled from the spec: `ClassInstance::HasMethod(name, argc)` is
declared in `runtime.h`, which is missing from the sources; spec §4.3
says it additionally verifies that the arity equals the number of
declared formal parameters (not counting the implicit `self`). -/
def hasMethod (cs : List RClass) (c : Nat) (m : String) (argc : Nat) : Bool :=
  match getMethod cs c m with
  | some meth => decide (meth.formalParams.length = argc)
  | Option.none => false

/-- Modelled from the spec: the name-only `HasMethod` used by
`ClassInstance::Print` (runtime.h is missing); spec §4.1: instances print
via `__str__` if defined. -/
def hasMethodName (cs : List RClass) (c : Nat) (m : String) : Bool :=
  (getMethod cs c m).isSome

def className (cs : List RClass) (c : Nat) : String :=
  match cs[c]? with
  | some rc => rc.name
  | Option.none => ""

/-- Build the fresh method closure of `ClassInstance::Call`: `self` is
bound first, then each formal parameter to its actual argument. -/
def bindParams : List String → List Value → Closure → Closure
  | p :: ps, v :: vs, cl => bindParams ps vs (clInsert cl p v)
  | _, _, cl => cl

/-- `runtime::ClassInstance::Call`, parametrised by the evaluator `f`
used to execute the method body: check arity (`HasMethod`), build the
fresh closure with `self` and the formal parameters, and run the body. -/
def callWith (cs : List RClass) (f : Stmt → Closure → RState → Res)
    (ref : Nat) (m : String) (vs : List Value) (st : RState) : Res :=
  match heapAt st ref with
  | Option.none => .err "invalid instance reference" st
  | some p =>
    if hasMethod cs p.1 m vs.length then
      match getMethod cs p.1 m with
      | some meth =>
        f meth.body (bindParams meth.formalParams vs [("self", .inst ref)]) st
      | Option.none => .err "unreachable" st
    else .err ("no inplementation of " ++ m ++ " in " ++ className cs p.1) st

/-- `runtime::IsTrue`: nonzero numbers and nonempty strings are truthy,
booleans are themselves, everything else (an empty holder, classes,
instances) is falsy. -/
def isTrueV : Value → Bool
  | .num n => decide (n ≠ 0)
  | .str s => decide (s ≠ "")
  | .bool b => b
  | _ => false

/-- `ast::VariableValue::Execute`: follow the dotted chain of
identifiers.  Every identifier must be bound in the current environment
(else `runtime_error "variable <id> not found"`); every identifier except
the last must be bound to an instance, whose field environment is
descended into.  (The C++ dereferences `TryAs<ClassInstance>()` without a
null check on intermediate identifiers; a non-instance there is undefined
behaviour, modelled as a distinguished error.)  The empty chain cannot be
produced by the `VariableValue` constructors. -/
def execVar (st : RState) : List String → Closure → Except String Value
  | [], _ => .error "empty dotted id chain"
  | [x], cl =>
    match clGet cl x with
    | some v => .ok v
    | Option.none => .error ("variable " ++ x ++ " not found")
  | x :: y :: rest, cl =>
    match clGet cl x with
    | Option.none => .error ("variable " ++ x ++ " not found")
    | some v =>
      match v with
      | .inst r =>
        match heapAt st r with
        | some p => execVar st (y :: rest) p.2
        | Option.none => .error "invalid instance reference"
      | _ => .error "TryAs null dereference"

/-- The print form of an instance without `__str__`
(`os << this` in `ClassInstance::Print` writes the object's address,
an implementation-defined stable representation). -/
def instRepr (r : Nat) : String := "<instance " ++ toString r ++ ">"

/-- `Object::Print` of a single value, parametrised by the evaluator `f`
for `__str__` bodies.  Numbers print decimally, strings raw, booleans as
`True`/`False` (runtime.cpp `Bool::Print`); the number/string/class forms
are modelled from the spec since `runtime.h` with `ValueObject::Print`
and `Class::Print` is missing from the sources.  An instance prints via
`__str__` when the class defines a method of that name (`Call` then
re-checks the zero arity), otherwise its address representation.
Printing an empty holder dereferences a null `ObjectHolder` in the C++
(`AssertIsValid`), modelled as a distinguished error. -/
def printValueWith (cs : List RClass) (f : Stmt → Closure → RState → Res) :
    Nat → Value → RState → PRes
  | _, .num n, st => .ok (toString n) st
  | _, .str s, st => .ok s st
  | _, .bool b, st => .ok (if b then "True" else "False") st
  | _, .cls c, st => .ok ("Class " ++ className cs c) st
  | _, .none, st => .err "dereference of an empty holder" st
  | fuel, .inst r, st =>
    match heapAt st r with
    | Option.none => .err "invalid instance reference" st
    | some p =>
      if hasMethodName cs p.1 "__str__" then
        match callWith cs f r "__str__" [] st with
        | .ok v _ st2 =>
          match fuel with
          | 0 => .oof
          | k + 1 => printValueWith cs f k v st2
        | .ret v _ st2 => .ret v st2
        | .err m st2 => .err m st2
        | .oof => .oof
      else .ok (instRepr r) st

/-- `AppendByStatement` (statement.cpp): execute the statement; an empty
holder appends the literal text `None`, any other value appends its print
form. -/
def appendArgWith (cs : List RClass) (f : Stmt → Closure → RState → Res)
    (pfuel : Nat) (a : Stmt) (cl : Closure) (st : RState) : StrRes :=
  match f a cl st with
  | .ok v cl2 st2 =>
    match v with
    | .none => .ok "None" cl2 st2
    | _ =>
      match printValueWith cs f pfuel v st2 with
      | .ok s st3 => .ok s cl2 st3
      | .ret w st3 => .ret w cl2 st3
      | .err m st3 => .err m st3
      | .oof => .oof
  | .ret v cl2 st2 => .ret v cl2 st2
  | .err m st2 => .err m st2
  | .oof => .oof

/-- The `std::for_each` tail of `Print::Execute`: append the remaining
arguments, each preceded by a single space. -/
def strOfRestWith (cs : List RClass) (f : Stmt → Closure → RState → Res)
    (pfuel : Nat) : List Stmt → String → Closure → RState → StrRes
  | [], acc, cl, st => .ok acc cl st
  | a :: rest, acc, cl, st =>
    match appendArgWith cs f pfuel a cl st with
    | .ok s cl2 st2 => strOfRestWith cs f pfuel rest (acc ++ " " ++ s) cl2 st2
    | r => r

/-- `ExecuteArguments` (statement.cpp): execute the argument statements
left to right, collecting their values. -/
def runArgsWith (f : Stmt → Closure → RState → Res) :
    List Stmt → Closure → RState → ArgsRes
  | [], cl, st => .ok [] cl st
  | a :: rest, cl, st =>
    match f a cl st with
    | .ok v cl2 st2 =>
      match runArgsWith f rest cl2 st2 with
      | .ok vs cl3 st3 => .ok (v :: vs) cl3 st3
      | r => r
    | .ret v cl2 st2 => .ret v cl2 st2
    | .err m st2 => .err m st2
    | .oof => .oof

/-- The loop of `Compound::Execute`: run the statements in order and
return an empty holder; any abrupt outcome propagates. -/
def runSeqWith (f : Stmt → Closure → RState → Res) :
    List Stmt → Closure → RState → Res
  | [], cl, st => .ok .none cl st
  | s :: rest, cl, st =>
    match f s cl st with
    | .ok _ cl2 st2 => runSeqWith f rest cl2 st2
    | r => r

/-- The evaluator: `Statement::Execute` of every node variant, fuelled.
Each case is the direct transcription of the corresponding `Execute`
method in statement.h / statement.cpp. -/
def exec (cs : List RClass) : Nat → Stmt → Closure → RState → Res
  | 0, _, _, _ => .oof
  | n + 1, s, cl, st =>
    match s with
    | .numConst v => .ok (.num v) cl st
    | .strConst v => .ok (.str v) cl st
    | .boolConst b => .ok (.bool b) cl st
    | .noneConst => .ok .none cl st
    | .varValue ids =>
      match execVar st ids cl with
      | .ok v => .ok v cl st
      | .error m => .err m st
    | .assign x rv =>
      match exec cs n rv cl st with
      | .ok v cl2 st2 => .ok v (clInsert cl2 x v) st2
      | r => r
    | .fieldAssign ids fld rv =>
      match execVar st ids cl with
      | .error m => .err m st
      | .ok v =>
        match v with
        | .inst r =>
          match exec cs n rv cl st with
          | .ok w cl2 st2 => .ok w cl2 (heapSetField st2 r fld w)
          | r2 => r2
        | _ => .ok .none cl st
    | .printStmt args =>
      match args with
      | [] => .ok .none cl { st with output := st.output ++ ["\n"] }
      | a :: rest =>
        match appendArgWith cs (fun s2 cl2 st2 => exec cs n s2 cl2 st2) n a cl st with
        | .ok s1 cl2 st2 =>
          match strOfRestWith cs (fun s3 cl3 st3 => exec cs n s3 cl3 st3) n rest s1 cl2 st2 with
          | .ok s2 cl3 st3 => .ok .none cl3 { st3 with output := st3.output ++ [s2 ++ "\n"] }
          | .ret v cl3 st3 => .ret v cl3 st3
          | .err m st3 => .err m st3
          | .oof => .oof
        | .ret v cl2 st2 => .ret v cl2 st2
        | .err m st2 => .err m st2
        | .oof => .oof
    | .methodCall obj m args =>
      match exec cs n obj cl st with
      | .ok v cl2 st2 =>
        match v with
        | .inst r =>
          match heapAt st2 r with
          | some p =>
            if hasMethod cs p.1 m args.length then
              match runArgsWith (fun s2 cl3 st3 => exec cs n s2 cl3 st3) args cl2 st2 with
              | .ok vs cl3 st3 =>
                match callWith cs (fun s2 cl4 st4 => exec cs n s2 cl4 st4) r m vs st3 with
                | .ok w _ st4 => .ok w cl3 st4
                | .ret w _ st4 => .ret w cl3 st4
                | .err msg st4 => .err msg st4
                | .oof => .oof
              | .ret w cl3 st3 => .ret w cl3 st3
              | .err msg st3 => .err msg st3
              | .oof => .oof
            else .err "not a class instance" st2
          | Option.none => .err "invalid instance reference" st2
        | _ => .err "not a class instance" st2
      | r2 => r2
    | .newInstance ref args =>
      match heapAt st ref with
      | Option.none => .err "invalid instance reference" st
      | some p =>
        if hasMethod cs p.1 "__init__" args.length then
          match runArgsWith (fun s2 cl2 st2 => exec cs n s2 cl2 st2) args cl st with
          | .ok vs cl2 st2 =>
            match callWith cs (fun s2 cl3 st3 => exec cs n s2 cl3 st3) ref "__init__" vs st2 with
            | .ok _ _ st3 => .ok (.inst ref) cl2 st3
            | .ret v _ st3 => .ret v cl2 st3
            | .err m st3 => .err m st3
            | .oof => .oof
          | .ret v cl2 st2 => .ret v cl2 st2
          | .err m st2 => .err m st2
          | .oof => .oof
        else .ok (.inst ref) cl st
    | .stringify a =>
      match appendArgWith cs (fun s2 cl2 st2 => exec cs n s2 cl2 st2) n a cl st with
      | .ok s1 cl2 st2 => .ok (.str s1) cl2 st2
      | .ret v cl2 st2 => .ret v cl2 st2
      | .err m st2 => .err m st2
      | .oof => .oof
    | .add l r =>
      match exec cs n l cl st with
      | .ok lv cl2 st2 =>
        match exec cs n r cl2 st2 with
        | .ok rv cl3 st3 =>
          match lv, rv with
          | .num a, .num b => .ok (.num (a + b)) cl3 st3
          | .str a, .str b => .ok (.str (a ++ b)) cl3 st3
          | _, _ =>
            match lv with
            | .inst ri =>
              match heapAt st3 ri with
              | some p =>
                if hasMethod cs p.1 "__add__" 1 then
                  match callWith cs (fun s2 cl4 st4 => exec cs n s2 cl4 st4) ri "__add__" [rv] st3 with
                  | .ok w _ st4 => .ok w cl3 st4
                  | .ret w _ st4 => .ret w cl3 st4
                  | .err m st4 => .err m st4
                  | .oof => .oof
                else .err "cannot add arguments" st3
              | Option.none => .err "invalid instance reference" st3
            | _ => .err "cannot add arguments" st3
        | r2 => r2
      | r2 => r2
    | .sub l r =>
      match exec cs n l cl st with
      | .ok lv cl2 st2 =>
        match exec cs n r cl2 st2 with
        | .ok rv cl3 st3 =>
          match lv, rv with
          | .num a, .num b => .ok (.num (a - b)) cl3 st3
          | _, _ => .err "cannot substract arguments (valid for numbers only)" st3
        | r2 => r2
      | r2 => r2
    | .mult l r =>
      match exec cs n l cl st with
      | .ok lv cl2 st2 =>
        match exec cs n r cl2 st2 with
        | .ok rv cl3 st3 =>
          match lv, rv with
          | .num a, .num b => .ok (.num (a * b)) cl3 st3
          | _, _ => .err "cannot multiply arguments (valid for numbers only)" st3
        | r2 => r2
      | r2 => r2
    | .divStmt l r =>
      match exec cs n l cl st with
      | .ok lv cl2 st2 =>
        match exec cs n r cl2 st2 with
        | .ok rv cl3 st3 =>
          match lv, rv with
          | .num a, .num b =>
            if b = 0 then .err "try to divide to zero" st3
            else .ok (.num (Int.tdiv a b)) cl3 st3
          | _, _ => .err "cannot divide arguments (valid for numbers only)" st3
        | r2 => r2
      | r2 => r2
    | .orStmt l r =>
      match exec cs n l cl st with
      | .ok v cl2 st2 =>
        if isTrueV v then .ok (.bool true) cl2 st2
        else
          match exec cs n r cl2 st2 with
          | .ok w cl3 st3 => .ok (.bool (isTrueV w)) cl3 st3
          | r2 => r2
      | r2 => r2
    | .andStmt l r =>
      match exec cs n l cl st with
      | .ok v cl2 st2 =>
        if isTrueV v then
          match exec cs n r cl2 st2 with
          | .ok w cl3 st3 => .ok (.bool (isTrueV w)) cl3 st3
          | r2 => r2
        else .ok (.bool false) cl2 st2
      | r2 => r2
    | .notStmt a =>
      match exec cs n a cl st with
      | .ok v cl2 st2 => .ok (.bool (!isTrueV v)) cl2 st2
      | r2 => r2
    | .compound ss => runSeqWith (fun s2 cl2 st2 => exec cs n s2 cl2 st2) ss cl st
    | .methodBody b =>
      match exec cs n b cl st with
      | .ok _ cl2 st2 => .ok .none cl2 st2
      | .ret v cl2 st2 => .ok v cl2 st2
      | r2 => r2
    | .returnStmt e =>
      match exec cs n e cl st with
      | .ok v cl2 st2 => .ret v cl2 st2
      | r2 => r2
    | .classDecl c =>
      match cs[c]? with
      | some rc => .ok .none (clInsert cl rc.name (.cls c)) st
      | Option.none => .err "invalid class reference" st
    | .ifElse cond thn els =>
      match exec cs n cond cl st with
      | .ok v cl2 st2 =>
        if isTrueV v then exec cs n thn cl2 st2
        else
          match els with
          | some e => exec cs n e cl2 st2
          | Option.none => .ok .none cl2 st2
      | r2 => r2

/-- `ClassInstance::Call` with the fuelled evaluator. -/
def callM (cs : List RClass) (n : Nat) (ref : Nat) (m : String)
    (vs : List Value) (st : RState) : Res :=
  callWith cs (fun s2 cl2 st2 => exec cs n s2 cl2 st2) ref m vs st

/-- `ExecuteArguments` with the fuelled evaluator. -/
def execArgs (cs : List RClass) (n : Nat) (args : List Stmt)
    (cl : Closure) (st : RState) : ArgsRes :=
  runArgsWith (fun s2 cl2 st2 => exec cs n s2 cl2 st2) args cl st

/-- The `Compound::Execute` loop with the fuelled evaluator. -/
def execSeq (cs : List RClass) (n : Nat) (ss : List Stmt)
    (cl : Closure) (st : RState) : Res :=
  runSeqWith (fun s2 cl2 st2 => exec cs n s2 cl2 st2) ss cl st

/-- Coerce the result of a dunder call to the boolean that
`runtime::Equal` / `runtime::Less` return
(`Call(...).TryAs<Bool>()->GetValue()`; a non-`Bool` result is a null
dereference in the C++, modelled as a distinguished error). -/
def asBoolRes : Res → CRes
  | .ok v _ st =>
    match v with
    | .bool b => .ok b st
    | _ => .err "TryAs null dereference" st
  | .ret v _ st => .ret v st
  | .err m st => .err m st
  | .oof => .oof

/-- The tail of `runtime::Equal` after the three like-kind comparisons
and the instance dispatch fell through: two empty holders are equal,
anything else is a runtime error. -/
def eqNoneCheck (l r : Value) (st : RState) : CRes :=
  if l = .none ∧ r = .none then .ok true st
  else .err "no viable equal operator" st

/-- `runtime::Equal`: like-kinded numbers, strings and booleans compare
by value; otherwise, a left operand that is an instance whose class has
`__eq__` of arity 1 dispatches to it; otherwise two empty holders are
equal; every remaining case throws. -/
def equalV (cs : List RClass) (n : Nat) (l r : Value) (st : RState) : CRes :=
  match l, r with
  | .num a, .num b => .ok (decide (a = b)) st
  | .str a, .str b => .ok (decide (a = b)) st
  | .bool a, .bool b => .ok (decide (a = b)) st
  | _, _ =>
    match l with
    | .inst ri =>
      match heapAt st ri with
      | some p =>
        if hasMethod cs p.1 "__eq__" 1 then
          asBoolRes (callM cs n ri "__eq__" [r] st)
        else eqNoneCheck l r st
      | Option.none => .err "invalid instance reference" st
    | _ => eqNoneCheck l r st

/-- `runtime::Less`: like-kinded numbers, strings and booleans compare
with `<` (`false < true` for booleans); otherwise, a left operand that is
an instance whose class has `__lt__` of arity 1 dispatches to it; every
remaining case (including two empty holders) throws. -/
def lessV (cs : List RClass) (n : Nat) (l r : Value) (st : RState) : CRes :=
  match l, r with
  | .num a, .num b => .ok (decide (a < b)) st
  | .str a, .str b => .ok (decide (a < b)) st
  | .bool a, .bool b => .ok (!a && b) st
  | _, _ =>
    match l with
    | .inst ri =>
      match heapAt st ri with
      | some p =>
        if hasMethod cs p.1 "__lt__" 1 then
          asBoolRes (callM cs n ri "__lt__" [r] st)
        else .err "no viable comparator" st
      | Option.none => .err "invalid instance reference" st
    | _ => .err "no viable comparator" st

example :
    exec [] 10
      (.compound [.assign "x" (.numConst 4), .assign "y" (.numConst 5),
        .printStmt [.add (.varValue ["x"]) (.varValue ["y"]),
          .mult (.varValue ["x"]) (.varValue ["y"]),
          .sub (.varValue ["y"]) (.varValue ["x"]),
          .divStmt (.varValue ["y"]) (.varValue ["x"])]])
      [] ⟨[], []⟩
    = .ok .none [("x", .num 4), ("y", .num 5)] ⟨[], ["9 20 1 1\n"]⟩ := by
  rfl

example :
    exec [⟨"A", [⟨"m", [], .methodBody (.compound [.returnStmt (.numConst 7),
        .assign "dead" (.numConst 1)])⟩], Option.none⟩] 10
      (.methodCall (.varValue ["a"]) "m" [])
      [("a", .inst 0)] ⟨[(0, [])], []⟩
    = .ok (.num 7) [("a", .inst 0)] ⟨[(0, [])], []⟩ := by
  rfl

/-! ### Evaluator unfolding lemmas -/

theorem exec_returnStmt (cs : List RClass) (n : Nat) (e : Stmt) (cl : Closure) (st : RState) :
    exec cs (n + 1) (.returnStmt e) cl st =
      match exec cs n e cl st with
      | .ok v cl2 st2 => .ret v cl2 st2
      | r2 => r2 := rfl

theorem exec_compound (cs : List RClass) (n : Nat) (ss : List Stmt) (cl : Closure) (st : RState) :
    exec cs (n + 1) (.compound ss) cl st = execSeq cs n ss cl st := rfl

theorem exec_methodBody (cs : List RClass) (n : Nat) (b : Stmt) (cl : Closure) (st : RState) :
    exec cs (n + 1) (.methodBody b) cl st =
      match exec cs n b cl st with
      | .ok _ cl2 st2 => .ok .none cl2 st2
      | .ret v cl2 st2 => .ok v cl2 st2
      | r2 => r2 := rfl

theorem exec_andStmt (cs : List RClass) (n : Nat) (l r : Stmt) (cl : Closure) (st : RState) :
    exec cs (n + 1) (.andStmt l r) cl st =
      match exec cs n l cl st with
      | .ok v cl2 st2 =>
        if isTrueV v then
          match exec cs n r cl2 st2 with
          | .ok w cl3 st3 => .ok (.bool (isTrueV w)) cl3 st3
          | r2 => r2
        else .ok (.bool false) cl2 st2
      | r2 => r2 := rfl

theorem exec_orStmt (cs : List RClass) (n : Nat) (l r : Stmt) (cl : Closure) (st : RState) :
    exec cs (n + 1) (.orStmt l r) cl st =
      match exec cs n l cl st with
      | .ok v cl2 st2 =>
        if isTrueV v then .ok (.bool true) cl2 st2
        else
          match exec cs n r cl2 st2 with
          | .ok w cl3 st3 => .ok (.bool (isTrueV w)) cl3 st3
          | r2 => r2
      | r2 => r2 := rfl

theorem exec_newInstance (cs : List RClass) (n : Nat) (ref : Nat) (args : List Stmt)
    (cl : Closure) (st : RState) :
    exec cs (n + 1) (.newInstance ref args) cl st =
      match heapAt st ref with
      | Option.none => .err "invalid instance reference" st
      | some p =>
        if hasMethod cs p.1 "__init__" args.length then
          match execArgs cs n args cl st with
          | .ok vs cl2 st2 =>
            match callM cs n ref "__init__" vs st2 with
            | .ok _ _ st3 => .ok (.inst ref) cl2 st3
            | .ret v _ st3 => .ret v cl2 st3
            | .err m st3 => .err m st3
            | .oof => .oof
          | .ret v cl2 st2 => .ret v cl2 st2
          | .err m st2 => .err m st2
          | .oof => .oof
        else .ok (.inst ref) cl st := rfl

theorem exec_fieldAssign (cs : List RClass) (n : Nat) (ids : List String) (fld : String)
    (rv : Stmt) (cl : Closure) (st : RState) :
    exec cs (n + 1) (.fieldAssign ids fld rv) cl st =
      match execVar st ids cl with
      | .error m => .err m st
      | .ok v =>
        match v with
        | .inst r =>
          match exec cs n rv cl st with
          | .ok w cl2 st2 => .ok w cl2 (heapSetField st2 r fld w)
          | r2 => r2
        | _ => .ok .none cl st := rfl

theorem runSeqWith_append (f : Stmt → Closure → RState → Res) (xs ys : List Stmt)
    (cl : Closure) (st : RState) :
    runSeqWith f (xs ++ ys) cl st =
      match runSeqWith f xs cl st with
      | .ok _ cl2 st2 => runSeqWith f ys cl2 st2
      | r => r := by
  induction xs generalizing cl st with
  | nil => simp [runSeqWith]
  | cons a rest ih =>
    simp only [List.cons_append, runSeqWith]
    cases f a cl st with
    | ok v cl2 st2 => simp [ih]
    | ret v cl2 st2 => rfl
    | err m st2 => rfl
    | oof => rfl

/-! ### C1: return unwinds to the method body -/

/-- **C1**: a `Return` statement raises the return-carrier holding its
expression's value, and when any statement `s` of a `Compound` method
body raises the carrier, the enclosing `MethodBody` yields the carried
value as its result and the statements after `s` on the taken control
path (`post`) are not executed — the outcome is independent of `post`
and of everything after the raise. -/
theorem claim_c1_return_unwinds :
    (∀ (cs : List RClass) (n : Nat) (e : Stmt) (cl : Closure) (st : RState)
        (v : Value) (cl2 : Closure) (st2 : RState),
      exec cs n e cl st = .ok v cl2 st2 →
      exec cs (n + 1) (.returnStmt e) cl st = .ret v cl2 st2) ∧
    (∀ (cs : List RClass) (n : Nat) (pre : List Stmt) (s : Stmt) (post : List Stmt)
        (cl : Closure) (st : RState) (w : Value) (cl1 : Closure) (st1 : RState)
        (v : Value) (cl2 : Closure) (st2 : RState),
      execSeq cs (n + 1) pre cl st = .ok w cl1 st1 →
      exec cs (n + 1) s cl1 st1 = .ret v cl2 st2 →
      exec cs (n + 3) (.methodBody (.compound (pre ++ s :: post))) cl st
        = .ok v cl2 st2) := by
  constructor
  · intro cs n e cl st v cl2 st2 h
    rw [exec_returnStmt, h]
  · intro cs n pre s post cl st w cl1 st1 v cl2 st2 h1 h2
    rw [exec_methodBody, exec_compound]
    simp only [execSeq] at h1 ⊢
    rw [runSeqWith_append, h1]
    simp only [runSeqWith]
    simp only [h2]

theorem claim_c1_witness :
    exec [] 4 (.methodBody (.compound ([.assign "a" (.numConst 1)]
        ++ .returnStmt (.numConst 7) :: [.assign "b" (.numConst 2)])))
      [] ⟨[], []⟩ = .ok (.num 7) [("a", .num 1)] ⟨[], []⟩ :=
  claim_c1_return_unwinds.2 [] 1 [.assign "a" (.numConst 1)] (.returnStmt (.numConst 7))
    [.assign "b" (.numConst 2)] [] ⟨[], []⟩ (.none) [("a", .num 1)] ⟨[], []⟩
    (.num 7) [("a", .num 1)] ⟨[], []⟩ rfl
    (claim_c1_return_unwinds.1 [] 1 (.numConst 7) [("a", .num 1)] ⟨[], []⟩
      (.num 7) [("a", .num 1)] ⟨[], []⟩ rfl)

/-! ### C5: short-circuit evaluation of And / Or -/

/-- **C5**: `And(L,R)` does not evaluate `R` when `L` is falsy (the
result and final state are exactly those after `L`); `Or(L,R)` does not
evaluate `R` when `L` is truthy; and whatever value an `And` or `Or`
produces is a `Bool`. -/
theorem claim_c5_short_circuit :
    (∀ (cs : List RClass) (n : Nat) (L R : Stmt) (cl : Closure) (st : RState)
        (v : Value) (cl2 : Closure) (st2 : RState),
      exec cs n L cl st = .ok v cl2 st2 → isTrueV v = false →
      exec cs (n + 1) (.andStmt L R) cl st = .ok (.bool false) cl2 st2) ∧
    (∀ (cs : List RClass) (n : Nat) (L R : Stmt) (cl : Closure) (st : RState)
        (v : Value) (cl2 : Closure) (st2 : RState),
      exec cs n L cl st = .ok v cl2 st2 → isTrueV v = true →
      exec cs (n + 1) (.orStmt L R) cl st = .ok (.bool true) cl2 st2) ∧
    (∀ (cs : List RClass) (n : Nat) (L R : Stmt) (cl : Closure) (st : RState)
        (v : Value) (cl2 : Closure) (st2 : RState),
      exec cs n (.andStmt L R) cl st = .ok v cl2 st2 → ∃ b, v = .bool b) ∧
    (∀ (cs : List RClass) (n : Nat) (L R : Stmt) (cl : Closure) (st : RState)
        (v : Value) (cl2 : Closure) (st2 : RState),
      exec cs n (.orStmt L R) cl st = .ok v cl2 st2 → ∃ b, v = .bool b) := by
  refine ⟨?_, ?_, ?_, ?_⟩
  · intro cs n L R cl st v cl2 st2 h hf
    rw [exec_andStmt, h]
    simp [hf]
  · intro cs n L R cl st v cl2 st2 h ht
    rw [exec_orStmt, h]
    simp [ht]
  · intro cs n L R cl st v cl2 st2 h
    cases n with
    | zero => simp [exec] at h
    | succ m =>
      rw [exec_andStmt] at h
      cases hL : exec cs m L cl st with
      | ok vL clL stL =>
        simp only [hL] at h
        by_cases ht : isTrueV vL = true
        · rw [if_pos ht] at h
          cases hR : exec cs m R clL stL with
          | ok vR clR stR =>
            simp only [hR] at h
            injection h with h1 h2 h3; exact ⟨_, h1.symm⟩
          | ret a b c => simp only [hR] at h; cases h
          | err a b => simp only [hR] at h; cases h
          | oof => simp only [hR] at h; cases h
        · rw [if_neg ht] at h; injection h with h1 h2 h3; exact ⟨_, h1.symm⟩
      | ret a b c => simp only [hL] at h; cases h
      | err a b => simp only [hL] at h; cases h
      | oof => simp only [hL] at h; cases h
  · intro cs n L R cl st v cl2 st2 h
    cases n with
    | zero => simp [exec] at h
    | succ m =>
      rw [exec_orStmt] at h
      cases hL : exec cs m L cl st with
      | ok vL clL stL =>
        simp only [hL] at h
        by_cases ht : isTrueV vL = true
        · rw [if_pos ht] at h; injection h with h1 h2 h3; exact ⟨_, h1.symm⟩
        · rw [if_neg ht] at h
          cases hR : exec cs m R clL stL with
          | ok vR clR stR =>
            simp only [hR] at h
            injection h with h1 h2 h3; exact ⟨_, h1.symm⟩
          | ret a b c => simp only [hR] at h; cases h
          | err a b => simp only [hR] at h; cases h
          | oof => simp only [hR] at h; cases h
      | ret a b c => simp only [hL] at h; cases h
      | err a b => simp only [hL] at h; cases h
      | oof => simp only [hL] at h; cases h

theorem claim_c5_witness :
    exec [] 2 (.andStmt (.boolConst false) (.printStmt [.strConst "SIDE"])) [] ⟨[], []⟩
        = .ok (.bool false) [] ⟨[], []⟩ ∧
      exec [] 2 (.orStmt (.boolConst true) (.printStmt [.strConst "SIDE"])) [] ⟨[], []⟩
        = .ok (.bool true) [] ⟨[], []⟩ :=
  ⟨claim_c5_short_circuit.1 [] 1 (.boolConst false) (.printStmt [.strConst "SIDE"])
      [] ⟨[], []⟩ (.bool false) [] ⟨[], []⟩ rfl rfl,
   claim_c5_short_circuit.2.1 [] 1 (.boolConst true) (.printStmt [.strConst "SIDE"])
      [] ⟨[], []⟩ (.bool true) [] ⟨[], []⟩ rfl rfl⟩

/-! ### C6 and C8: NewInstance construction -/

/-- **C6**: when the class of the node's instance has `__init__` of
matching arity, `NewInstance` evaluates the arguments, invokes `__init__`
on them, and only then returns the instance (the returned state is the
one after the `__init__` call); otherwise, if the node's instance cell
holds no fields, the instance is returned with an empty field
environment and nothing else happens. -/
theorem claim_c6_new_instance_init :
    ∀ (cs : List RClass) (n : Nat) (ref : Nat) (args : List Stmt) (cl : Closure)
      (st : RState) (c : Nat) (flds : Closure),
      heapAt st ref = some (c, flds) →
      (hasMethod cs c "__init__" args.length = true →
        ∀ (vs : List Value) (cl2 : Closure) (st2 : RState) (w : Value)
          (cl3 : Closure) (st3 : RState),
          execArgs cs n args cl st = .ok vs cl2 st2 →
          callM cs n ref "__init__" vs st2 = .ok w cl3 st3 →
          exec cs (n + 1) (.newInstance ref args) cl st = .ok (.inst ref) cl2 st3) ∧
      (hasMethod cs c "__init__" args.length = false →
        flds = [] →
        exec cs (n + 1) (.newInstance ref args) cl st = .ok (.inst ref) cl st ∧
          heapAt st ref = some (c, [])) := by
  intro cs n ref args cl st c flds hheap
  constructor
  · intro hm vs cl2 st2 w cl3 st3 hargs hcall
    rw [exec_newInstance, hheap]
    simp only [if_pos hm, hargs, hcall]
  · intro hm hflds
    subst hflds
    rw [exec_newInstance, hheap]
    simp only [hm, if_neg]
    exact ⟨by simp, trivial⟩

/-- **C6 (counterexample)**: the C++ `NewInstance` node owns a single
`ClassInstance` member (`class_`) shared by all of its executions, so a
node whose class has no `__init__` does not always return an instance
with an empty field environment: here the same node (heap cell 0) is
executed twice inside one program; between the two executions a field of
the escaped instance is assigned, and the second execution returns the
same instance, now with the non-empty field environment
`[("x", 5)]`. -/
theorem claim_c6_counterexample :
    exec [⟨"P", [], Option.none⟩] 5
        (.compound [.assign "p" (.newInstance 0 []),
          .fieldAssign ["p"] "x" (.numConst 5),
          .assign "q" (.newInstance 0 [])]) [] ⟨[(0, [])], []⟩
      = .ok .none [("p", .inst 0), ("q", .inst 0)] ⟨[(0, [("x", .num 5)])], []⟩ ∧
    hasMethod [⟨"P", [], Option.none⟩] 0 "__init__" 0 = false ∧
    ¬ heapAt ⟨[(0, [("x", .num 5)])], []⟩ 0 = some (0, []) :=
  ⟨rfl, rfl, by decide⟩

theorem claim_c6_witness :
    exec [⟨"P", [⟨"__init__", ["v"], .methodBody
          (.fieldAssign ["self"] "x" (.varValue ["v"]))⟩], Option.none⟩] 5
      (.newInstance 0 [.numConst 3]) [] ⟨[(0, [])], []⟩
      = .ok (.inst 0) [] ⟨[(0, [("x", .num 3)])], []⟩ :=
  (claim_c6_new_instance_init
      [⟨"P", [⟨"__init__", ["v"], .methodBody
          (.fieldAssign ["self"] "x" (.varValue ["v"]))⟩], Option.none⟩]
      4 0 [.numConst 3] [] ⟨[(0, [])], []⟩ 0 [] rfl).1
    rfl [.num 3] [] ⟨[(0, [])], []⟩ .none
    [("self", .inst 0), ("v", .num 3)] ⟨[(0, [("x", .num 3)])], []⟩ rfl rfl

/-- **C8**: when the class of the node's instance has no `__init__` of
matching arity, the argument statements are not executed at all: for
every argument list the result is the instance with the closure and the
global state (heap and output) unchanged. -/
theorem claim_c8_args_not_evaluated :
    ∀ (cs : List RClass) (n : Nat) (ref : Nat) (args : List Stmt) (cl : Closure)
      (st : RState) (c : Nat) (flds : Closure),
      heapAt st ref = some (c, flds) →
      hasMethod cs c "__init__" args.length = false →
      exec cs (n + 1) (.newInstance ref args) cl st = .ok (.inst ref) cl st := by
  intro cs n ref args cl st c flds hheap hm
  rw [exec_newInstance, hheap]
  simp only [hm, if_neg]
  simp

theorem claim_c8_witness :
    exec [⟨"P", [], Option.none⟩] 3
      (.newInstance 0 [.printStmt [.strConst "EFFECT"], .assign "z" (.numConst 9)])
      [] ⟨[(0, [])], []⟩
      = .ok (.inst 0) [] ⟨[(0, [])], []⟩ :=
  claim_c8_args_not_evaluated [⟨"P", [], Option.none⟩] 2 0
    [.printStmt [.strConst "EFFECT"], .assign "z" (.numConst 9)]
    [] ⟨[(0, [])], []⟩ 0 [] rfl rfl

/-! ### C9: field assignment through a non-instance -/

/-- **C9**: when the object path of a `FieldAssignment` resolves to a
value that is not an instance, the statement throws nothing, does not
execute the right-hand side (the outcome is the same for every `rv`),
leaves the environment and the global state unchanged, and returns an
empty holder. -/
theorem claim_c9_field_assignment_non_instance :
    ∀ (cs : List RClass) (n : Nat) (ids : List String) (fld : String) (rv : Stmt)
      (cl : Closure) (st : RState) (v : Value),
      execVar st ids cl = .ok v →
      (∀ r, v ≠ .inst r) →
      exec cs (n + 1) (.fieldAssign ids fld rv) cl st = .ok .none cl st := by
  intro cs n ids fld rv cl st v hvar hni
  rw [exec_fieldAssign, hvar]
  cases v with
  | inst r => exact absurd rfl (hni r)
  | none => rfl
  | num a => rfl
  | str a => rfl
  | bool a => rfl
  | cls a => rfl

theorem claim_c9_witness :
    exec [] 1 (.fieldAssign ["x"] "f" (.printStmt [.strConst "EFFECT"]))
      [("x", .num 1)] ⟨[], []⟩ = .ok .none [("x", .num 1)] ⟨[], []⟩ :=
  claim_c9_field_assignment_non_instance [] 0 ["x"] "f" (.printStmt [.strConst "EFFECT"])
    [("x", .num 1)] ⟨[], []⟩ (.num 1) rfl (fun _ h => Value.noConfusion h)

/-! ### C4: runtime::Equal and runtime::Less -/

/-- Like-kinded primitive operands (the three direct-comparison blocks of
`runtime::Equal` / `runtime::Less`). -/
def likeKind : Value → Value → Bool
  | .num _, .num _ => true
  | .str _, .str _ => true
  | .bool _, .bool _ => true
  | _, _ => false

/-- **C4**: `Equal` compares like-kinded primitives by value, returns
true on two empty holders, dispatches to `__eq__(other)` when the left
operand is an instance whose class defines `__eq__` with arity 1, and
throws in every remaining case; `Less` behaves analogously with direct
`<` and `__lt__` (and no empty-holder clause, so two empty holders
throw). -/
theorem claim_c4_equal_less_semantics :
    (∀ (cs : List RClass) (n : Nat) (a b : Int) (st : RState),
      equalV cs n (.num a) (.num b) st = .ok (decide (a = b)) st) ∧
    (∀ (cs : List RClass) (n : Nat) (a b : String) (st : RState),
      equalV cs n (.str a) (.str b) st = .ok (decide (a = b)) st) ∧
    (∀ (cs : List RClass) (n : Nat) (a b : Bool) (st : RState),
      equalV cs n (.bool a) (.bool b) st = .ok (decide (a = b)) st) ∧
    (∀ (cs : List RClass) (n : Nat) (st : RState),
      equalV cs n .none .none st = .ok true st) ∧
    (∀ (cs : List RClass) (n : Nat) (ri : Nat) (r : Value) (st : RState)
        (c : Nat) (flds : Closure),
      heapAt st ri = some (c, flds) → hasMethod cs c "__eq__" 1 = true →
      equalV cs n (.inst ri) r st = asBoolRes (callM cs n ri "__eq__" [r] st)) ∧
    (∀ (cs : List RClass) (n : Nat) (l r : Value) (st : RState),
      likeKind l r = false → ¬(l = .none ∧ r = .none) → (∀ ri, l ≠ .inst ri) →
      equalV cs n l r st = .err "no viable equal operator" st) ∧
    (∀ (cs : List RClass) (n : Nat) (ri : Nat) (r : Value) (st : RState)
        (c : Nat) (flds : Closure),
      heapAt st ri = some (c, flds) → hasMethod cs c "__eq__" 1 = false →
      equalV cs n (.inst ri) r st = .err "no viable equal operator" st) ∧
    (∀ (cs : List RClass) (n : Nat) (a b : Int) (st : RState),
      lessV cs n (.num a) (.num b) st = .ok (decide (a < b)) st) ∧
    (∀ (cs : List RClass) (n : Nat) (a b : String) (st : RState),
      lessV cs n (.str a) (.str b) st = .ok (decide (a < b)) st) ∧
    (∀ (cs : List RClass) (n : Nat) (a b : Bool) (st : RState),
      lessV cs n (.bool a) (.bool b) st = .ok (!a && b) st) ∧
    (∀ (cs : List RClass) (n : Nat) (ri : Nat) (r : Value) (st : RState)
        (c : Nat) (flds : Closure),
      heapAt st ri = some (c, flds) → hasMethod cs c "__lt__" 1 = true →
      lessV cs n (.inst ri) r st = asBoolRes (callM cs n ri "__lt__" [r] st)) ∧
    (∀ (cs : List RClass) (n : Nat) (l r : Value) (st : RState),
      likeKind l r = false → (∀ ri, l ≠ .inst ri) →
      lessV cs n l r st = .err "no viable comparator" st) ∧
    (∀ (cs : List RClass) (n : Nat) (ri : Nat) (r : Value) (st : RState)
        (c : Nat) (flds : Closure),
      heapAt st ri = some (c, flds) → hasMethod cs c "__lt__" 1 = false →
      lessV cs n (.inst ri) r st = .err "no viable comparator" st) := by
  refine ⟨?_, ?_, ?_, ?_, ?_, ?_, ?_, ?_, ?_, ?_, ?_, ?_, ?_⟩
  · intro cs n a b st; rfl
  · intro cs n a b st; rfl
  · intro cs n a b st; rfl
  · intro cs n st; rfl
  · intro cs n ri r st c flds hheap hm
    cases r <;> simp [equalV, hheap, hm]
  · intro cs n l r st hk hn hni
    cases l <;> cases r <;>
      first
      | (exact absurd rfl (hni _))
      | simp_all [likeKind, equalV, eqNoneCheck]
  · intro cs n ri r st c flds hheap hm
    cases r <;> simp [equalV, hheap, hm, eqNoneCheck]
  · intro cs n a b st; rfl
  · intro cs n a b st; rfl
  · intro cs n a b st; rfl
  · intro cs n ri r st c flds hheap hm
    cases r <;> simp [lessV, hheap, hm]
  · intro cs n l r st hk hni
    cases l <;> cases r <;>
      first
      | (exact absurd rfl (hni _))
      | simp_all [likeKind, lessV]
  · intro cs n ri r st c flds hheap hm
    cases r <;> simp [lessV, hheap, hm]

theorem claim_c4_witness :
    equalV [] 1 (.num 2) (.num 2) ⟨[], []⟩ = .ok true ⟨[], []⟩ ∧
      equalV [] 1 .none .none ⟨[], []⟩ = .ok true ⟨[], []⟩ ∧
      equalV [⟨"E", [⟨"__eq__", ["o"], .methodBody
            (.returnStmt (.boolConst true))⟩], Option.none⟩] 3
          (.inst 0) (.num 5) ⟨[(0, [])], []⟩
        = asBoolRes (callM [⟨"E", [⟨"__eq__", ["o"], .methodBody
            (.returnStmt (.boolConst true))⟩], Option.none⟩] 3 0 "__eq__"
            [.num 5] ⟨[(0, [])], []⟩) ∧
      equalV [] 1 (.num 1) (.str "a") ⟨[], []⟩
        = .err "no viable equal operator" ⟨[], []⟩ ∧
      lessV [] 1 (.num 2) (.num 3) ⟨[], []⟩ = .ok true ⟨[], []⟩ ∧
      lessV [] 1 .none .none ⟨[], []⟩ = .err "no viable comparator" ⟨[], []⟩ :=
  ⟨claim_c4_equal_less_semantics.1 [] 1 2 2 ⟨[], []⟩,
   claim_c4_equal_less_semantics.2.2.2.1 [] 1 ⟨[], []⟩,
   claim_c4_equal_less_semantics.2.2.2.2.1 _ 3 0 (.num 5) ⟨[(0, [])], []⟩ 0 [] rfl rfl,
   claim_c4_equal_less_semantics.2.2.2.2.2.1 [] 1 (.num 1) (.str "a") ⟨[], []⟩ rfl
     (fun h => by cases h.1) (fun ri h => Value.noConfusion h),
   claim_c4_equal_less_semantics.2.2.2.2.2.2.2.1 [] 1 2 3 ⟨[], []⟩,
   claim_c4_equal_less_semantics.2.2.2.2.2.2.2.2.2.2.2.1 [] 1 .none .none ⟨[], []⟩ rfl
     (fun ri h => Value.noConfusion h)⟩

/-! ### C10: comparison dispatch is left-biased -/

/-- **C10**: when the left operand is a primitive or an empty holder and
the right operand is an instance, `Equal` and `Less` throw without
consulting the right operand's class at all — the result is the same for
every class table (in particular when the instance's class defines
`__eq__` / `__lt__`), and the state is unchanged, so the instance's
method is never invoked. -/
theorem claim_c10_left_biased_dispatch :
    ∀ (cs : List RClass) (n : Nat) (lhs : Value) (ri : Nat) (st : RState),
      (lhs = .none ∨ (∃ a, lhs = .num a) ∨ (∃ s, lhs = .str s) ∨ (∃ b, lhs = .bool b)) →
      equalV cs n lhs (.inst ri) st = .err "no viable equal operator" st ∧
        lessV cs n lhs (.inst ri) st = .err "no viable comparator" st := by
  intro cs n lhs ri st h
  rcases h with h | ⟨a, h⟩ | ⟨s, h⟩ | ⟨b, h⟩ <;> subst h <;>
    exact ⟨by simp [equalV, eqNoneCheck], by simp [lessV]⟩

theorem claim_c10_witness :
    equalV [⟨"E", [⟨"__eq__", ["o"], .methodBody (.returnStmt (.boolConst true))⟩,
          ⟨"__lt__", ["o"], .methodBody (.returnStmt (.boolConst true))⟩], Option.none⟩]
        5 (.num 1) (.inst 0) ⟨[(0, [])], []⟩
      = .err "no viable equal operator" ⟨[(0, [])], []⟩ ∧
    lessV [⟨"E", [⟨"__eq__", ["o"], .methodBody (.returnStmt (.boolConst true))⟩,
          ⟨"__lt__", ["o"], .methodBody (.returnStmt (.boolConst true))⟩], Option.none⟩]
        5 (.num 1) (.inst 0) ⟨[(0, [])], []⟩
      = .err "no viable comparator" ⟨[(0, [])], []⟩ :=
  claim_c10_left_biased_dispatch _ 5 (.num 1) 0 ⟨[(0, [])], []⟩
    (Or.inr (Or.inl ⟨1, rfl⟩))

end Mython
